import Mathlib

/-!
Verification development for the videocreation transcription service.

The development shallowly embeds the three source files:
  * utils/srt.py  — pure caption rendering (SRT and ASS formats),
  * transcribe.py — the Transcriber wrapper around the external model,
  * app.py        — the JobManager: registry, queue, worker loop, cleanup.

Python floats carried in word timestamps are modelled as exact rationals;
on every concrete value appearing in the claims the two agree.
Machine dictionaries (OrderedDict) are modelled as insertion-ordered
association lists with unique keys.  Filesystem effects are modelled by a
`disk` component (paths currently present) plus a `deletions` log (paths
removed, in removal order).
-/

/-- A transcribed word as produced by transcribe.py and consumed by the
renderers in utils/srt.py: keys text, start, end.  transcribe.py also
attaches a probability key, which no consumer in the repository reads,
so it is omitted here. -/
structure Word where
  text : String
  start : ℚ
  «end» : ℚ
deriving DecidableEq, Repr

/-- Zero padding of an integer to a given width, the behaviour of the
Python format specifiers 02d and 03d on the non-negative values produced
by the timestamp formatters. -/
def padZero (width : Nat) (n : Int) : String :=
  let s := toString n
  if s.length < width then String.mk (List.replicate (width - s.length) '0') ++ s else s

/-- Python floor division on reals, seconds // 3600. -/
def pyFloorDiv (a b : ℚ) : Int := ⌊a / b⌋

/-- Python modulo on reals with a positive divisor: a % b = a - b * (a // b). -/
def pyMod (a b : ℚ) : ℚ := a - b * ⌊a / b⌋

/-- utils/srt.py _format_timestamp: convert seconds to SRT timestamp format
HH:MM:SS,mmm.  Python int() coincides with floor on the non-negative
quantities involved. -/
def _format_timestamp (seconds : ℚ) : String :=
  let hours : Int := pyFloorDiv seconds 3600
  let minutes : Int := ⌊(pyMod seconds 3600) / 60⌋
  let secs : ℚ := pyMod seconds 60
  let milliseconds : Int := ⌊(secs - ⌊secs⌋) * 1000⌋
  padZero 2 hours ++ ":" ++ padZero 2 minutes ++ ":" ++ padZero 2 ⌊secs⌋ ++ "," ++
    padZero 3 milliseconds

/-- utils/srt.py _format_timestamp_ass: convert seconds to ASS timestamp
format H:MM:SS.cc (hours unpadded, centiseconds). -/
def _format_timestamp_ass (seconds : ℚ) : String :=
  let hours : Int := pyFloorDiv seconds 3600
  let minutes : Int := ⌊(pyMod seconds 3600) / 60⌋
  let secs : ℚ := pyMod seconds 60
  let centiseconds : Int := ⌊(secs - ⌊secs⌋) * 100⌋
  toString hours ++ ":" ++ padZero 2 minutes ++ ":" ++ padZero 2 ⌊secs⌋ ++ "." ++
    padZero 2 centiseconds

/-- utils/srt.py words_to_srt: each word becomes its own SRT entry,
1-based enumeration, entries accumulated left to right. -/
def words_to_srt (words : List Word) : String :=
  (words.enumFrom 1).foldl
    (fun srt_content iw =>
      srt_content ++ toString iw.1 ++ "\n" ++
        _format_timestamp iw.2.start ++ " --> " ++ _format_timestamp iw.2.«end» ++ "\n" ++
        iw.2.text ++ "\n\n")
    ""

/-- The fixed ASS header of utils/srt.py words_to_ass: script metadata and
one default style, then the events format line. -/
def assHeader : String :=
  "[Script Info]\nScriptType: v4.00+\nPlayResX: 384\nPlayResY: 288\nScaledBorderAndShadow: yes\n\n[V4+ Styles]\nFormat: Name, Fontname, Fontsize, PrimaryColour, SecondaryColour, OutlineColour, BackColour, Bold, Italic, Underline, StrikeOut, ScaleX, ScaleY, Spacing, Angle, BorderStyle, Outline, Shadow, Alignment, MarginL, MarginR, MarginV, Encoding\nStyle: Default,Arial,20,&H00FFFFFF,&H000000FF,&H00000000,&H00000000,0,0,0,0,100,100,0,0,1,2,0,2,10,10,10,1\n\n[Events]\nFormat: Layer, Start, End, Style, Name, MarginL, MarginR, MarginV, Effect, Text\n"

/-- utils/srt.py words_to_ass: the fixed header followed by one Dialogue
line per word. -/
def words_to_ass (words : List Word) : String :=
  words.foldl
    (fun ass_content word =>
      ass_content ++ "Dialogue: 0," ++ _format_timestamp_ass word.start ++ "," ++
        _format_timestamp_ass word.«end» ++ ",Default,,0,0,0,," ++ word.text ++ "\n")
    assHeader

/-- utils/srt.py words_to_ass_advanced simply delegates to words_to_ass.
Note this name lives in the utils.srt module namespace; app.py never
imports it (see app_render_caption below). -/
def words_to_ass_advanced (words : List Word) : String :=
  words_to_ass words

/-- Result dictionary returned by Transcriber.transcribe_file in
transcribe.py: the flattened word list, detected language and duration. -/
structure TranscribeResult where
  words : List Word
  language : String
  duration : ℚ
deriving DecidableEq, Repr

/-- transcribe.py Transcriber.  The underlying model invocation
(self.model.transcribe plus the flattening loop) is an external blackbox;
it is the field transcribe_file, a function of the audio path, the
language option, and the word_timestamps flag — exactly the parameters
transcribe.py forwards to it that vary between its call sites. -/
structure Transcriber where
  transcribe_file : String → Option String → Bool → TranscribeResult

/-- transcribe.py transcribe_large_file: ignores chunk_size and calls
transcribe_file with the given language and word_timestamps=True. -/
def Transcriber.transcribe_large_file (t : Transcriber) (audio_path : String)
    (language : Option String) (chunk_size : Nat) : TranscribeResult :=
  t.transcribe_file audio_path language true

/-- transcribe.py transcribe_file_no_vad: ignores use_large_model and calls
transcribe_file with the default language=None and the given
word_timestamps flag. -/
def Transcriber.transcribe_file_no_vad (t : Transcriber) (audio_path : String)
    (word_timestamps : Bool) (use_large_model : Bool) : TranscribeResult :=
  t.transcribe_file audio_path none word_timestamps

example : _format_timestamp 0 = "00:00:00,000" := by
  norm_num [_format_timestamp, pyFloorDiv, pyMod]; decide

example : _format_timestamp (2/5 : ℚ) = "00:00:00,400" := by
  norm_num [_format_timestamp, pyFloorDiv, pyMod]; decide

/-- Job lifecycle status, the four string constants of app.py. -/
inductive JobStatus where
  | waiting : JobStatus
  | processing : JobStatus
  | completed : JobStatus
  | error : JobStatus
deriving DecidableEq, Repr

/-- A job record, the dictionary built in JobManager.create_job.
Timestamps are Unix seconds; app.py stores them as ISO strings and parses
them back via fromisoformat, a lossless round trip, so they are modelled
by the instant itself. -/
structure Job where
  id : String
  filename : String
  filepath : String
  output_format : String
  use_vad : Bool
  status : JobStatus
  created_at : Int
  started_at : Option Int
  completed_at : Option Int
  result_path : Option String
  error_message : Option String
  file_size_mb : ℚ
  word_count : Nat
  language : Option String
deriving DecidableEq, Repr

/-- The two app.config knobs the JobManager reads. -/
structure AppConfig where
  MAX_JOBS_IN_MEMORY : Nat
  JOB_CLEANUP_HOURS : Nat
deriving DecidableEq, Repr

/-- The configured values of app.py: 5 resident jobs, 24 hour retention. -/
def appConfig : AppConfig := { MAX_JOBS_IN_MEMORY := 5, JOB_CLEANUP_HOURS := 24 }

/-- The mutable state of a JobManager: the insertion-ordered registry
(OrderedDict self.jobs), the FIFO queue of job ids (self.job_queue, front
first), the currently-processing marker, together with the modelled
filesystem: disk is the set of paths currently present, deletions the log
of successful os.remove calls in order. -/
structure JMState where
  jobs : List (String × Job)
  job_queue : List String
  currently_processing : Option String
  disk : List String
  deletions : List String
deriving DecidableEq, Repr

/-- Dictionary lookup self.jobs.get(job_id). -/
def lookupJob (s : JMState) (job_id : String) : Option Job :=
  (s.jobs.find? (fun p => p.1 == job_id)).map Prod.snd

/-- One guarded file removal: if os.path.exists(path) then os.remove(path).
A successful removal is appended to the deletions log. -/
def removeFile (s : JMState) (path : String) : JMState :=
  if path ∈ s.disk then
    { s with disk := s.disk.filter (fun q => q != path),
             deletions := s.deletions ++ [path] }
  else s

/-- JobManager._cleanup_files: remove each listed temporary file if present. -/
def _cleanup_files (s : JMState) (file_list : List String) : JMState :=
  file_list.foldl removeFile s

/-- JobManager._cleanup_job_files: remove the job's result file (when the
record has one) and then its uploaded source file, tolerating missing
files; no-op when the job id is not resident. -/
def _cleanup_job_files (s : JMState) (job_id : String) : JMState :=
  match lookupJob s job_id with
  | none => s
  | some job =>
    let s1 := match job.result_path with
      | some rp => removeFile s rp
      | none => s
    removeFile s1 job.filepath

/-- Registry deletion, del self.jobs[job_id]. -/
def removeJob (s : JMState) (job_id : String) : JMState :=
  { s with jobs := s.jobs.filter (fun p => p.1 != job_id) }

/-- One eviction: _cleanup_job_files(job_id) followed by del self.jobs[job_id],
the body of both removal loops in _cleanup_old_jobs. -/
def evictOne (s : JMState) (job_id : String) : JMState :=
  removeJob (_cleanup_job_files s job_id) job_id

/-- The capacity loop of _cleanup_old_jobs:
while len(self.jobs) >= MAX_JOBS_IN_MEMORY, evict next(iter(self.jobs)),
the oldest-inserted job.  Each pass removes the head entry, so the loop
runs at most len(self.jobs) times; fuel makes that recursion structural. -/
def evictLoop (max_jobs : Nat) : Nat → JMState → JMState
  | 0, s => s
  | fuel + 1, s =>
    if max_jobs ≤ s.jobs.length then
      match s.jobs with
      | [] => s
      | (oldest_job_id, _) :: _ => evictLoop max_jobs fuel (evictOne s oldest_job_id)
    else s

/-- The capacity loop entered with sufficient fuel. -/
def evictOverCap (max_jobs : Nat) (s : JMState) : JMState :=
  evictLoop max_jobs s.jobs.length s

/-- JobManager._cleanup_old_jobs: first remove every job whose creation
time is strictly older than the retention cutoff (in registry iteration
order), then enforce the capacity bound by evicting oldest-inserted jobs
while the registry holds MAX_JOBS_IN_MEMORY or more records. -/
def _cleanup_old_jobs (cfg : AppConfig) (now : Int) (s : JMState) : JMState :=
  let cutoff_time : Int := now - (cfg.JOB_CLEANUP_HOURS : Int) * 3600
  let jobs_to_remove :=
    (s.jobs.filter (fun p => decide (p.2.created_at < cutoff_time))).map Prod.fst
  let s1 := jobs_to_remove.foldl evictOne s
  evictOverCap cfg.MAX_JOBS_IN_MEMORY s1

/-- The fresh job record of JobManager.create_job. -/
def newJob (job_id filename filepath output_format : String) (use_vad : Bool)
    (now : Int) : Job :=
  { id := job_id, filename := filename, filepath := filepath,
    output_format := output_format, use_vad := use_vad,
    status := JobStatus.waiting, created_at := now,
    started_at := none, completed_at := none, result_path := none,
    error_message := none, file_size_mb := 0, word_count := 0, language := none }

/-- JobManager.create_job: under the lock, run _cleanup_old_jobs, insert the
new record at the end of the registry, and enqueue the job id. -/
def create_job (cfg : AppConfig) (now : Int)
    (job_id filename filepath output_format : String) (use_vad : Bool)
    (s : JMState) : JMState :=
  let s1 := _cleanup_old_jobs cfg now s
  { s1 with jobs := s1.jobs ++ [(job_id, newJob job_id filename filepath output_format use_vad now)],
            job_queue := s1.job_queue ++ [job_id] }

/-- One upload request: the parameters the /api/upload route passes to
create_job. -/
structure CreateReq where
  job_id : String
  filename : String
  filepath : String
  output_format : String
  use_vad : Bool
deriving DecidableEq, Repr

/-- The upload_file route: stream the uploaded bytes to filepath on disk,
then create the job. -/
def upload_and_create (cfg : AppConfig) (now : Int) (r : CreateReq) (s : JMState) : JMState :=
  create_job cfg now r.job_id r.filename r.filepath r.output_format r.use_vad
    { s with disk := s.disk ++ [r.filepath] }

/-- JobManager.get_queue_position: -1 when the id is not resident;
otherwise the 1-based index in the queue snapshot, overridden to 0 when
the id equals the currently-processing marker, and -1 when the id is
absent from the queue and not currently processing. -/
def get_queue_position (s : JMState) (job_id : String) : Int :=
  if job_id ∈ s.jobs.map Prod.fst then
    match s.job_queue.findIdx? (fun q => q == job_id) with
    | some idx =>
      if s.currently_processing = some job_id then 0 else (idx : Int) + 1
    | none =>
      if s.currently_processing = some job_id then 0 else -1
  else -1

/-- Point update of a resident record, the effect of mutating the job
dictionary fetched from the registry; a no-op when the id is absent
(the Python object would be mutated, but it is no longer reachable from
the registry). -/
def updateJob (s : JMState) (job_id : String) (f : Job → Job) : JMState :=
  { s with jobs := s.jobs.map (fun p => if p.1 = job_id then (p.1, f p.2) else p) }

/-- The locked prologue of the worker iteration in _process_jobs: mark the
dequeued job processing, stamp started_at, and set the marker. -/
def startJob (now : Int) (s : JMState) (job_id : String) : JMState :=
  { updateJob s job_id
      (fun j => { j with status := JobStatus.processing, started_at := some now })
    with currently_processing := some job_id }

/-- The error bookkeeping shared by the except blocks of app.py: set the
record to error with str(e) as the message. -/
def errJob (msg : String) (j : Job) : Job :=
  { j with status := JobStatus.error, error_message := some msg }

/-- Python str.rsplit(sep, 1)[0] for sep a single dot: everything before
the last dot, or the whole string when it has no dot. -/
def rsplitBase (filename : String) : String :=
  let parts := filename.splitOn "."
  if parts.length ≤ 1 then filename
  else String.intercalate "." parts.dropLast

/-- The caption rendering step of _process_single_job as it executes in
app.py's module namespace.  app.py line 4 imports only words_to_srt and
words_to_ass from utils.srt, so the name words_to_ass_advanced used on
the ass branch is unresolved there and evaluating that branch raises
NameError (message modelled without the quote characters of the Python
text); the srt branch calls words_to_srt. -/
def app_render_caption (output_format : String) (ws : List Word) : Except String String :=
  if output_format = "ass" then
    Except.error "NameError: words_to_ass_advanced is not defined"
  else
    Except.ok (words_to_srt ws)

/-- Outcomes of the effectful steps of one _process_single_job run: the
file-size probe, audio extraction (error, or the fresh temp wav path it
created), the two transcription entry points (the use_vad dispatch
targets), the artifact write, and the completion timestamp. -/
structure ProcEnv where
  getsize : Except String ℚ
  extract_audio : Except String String
  transcribe_large_file : Except String TranscribeResult
  transcribe_file_no_vad : Except String TranscribeResult
  write_artifact : Except String Unit
  now : Int

/-- The use_vad dispatch of _process_single_job (app.py lines 217 to 228):
choose which Transcriber entry point to invoke. -/
def dispatch_transcribe (env : ProcEnv) (use_vad : Bool) : Except String TranscribeResult :=
  if use_vad then env.transcribe_large_file else env.transcribe_file_no_vad

/-- JobManager._process_single_job.  Returns the resulting manager state
together with the outcome: ok on completion, or error e when the body
raised e (after the except block recorded the failure on the record and
the finally block removed the temporary audio file). -/
def _process_single_job (env : ProcEnv) (s : JMState) (job_id : String) :
    JMState × Except String Unit :=
  match lookupJob s job_id with
  | none => (s, Except.error "KeyError")
  | some job =>
    match env.getsize with
    | Except.error msg => (updateJob s job_id (errJob msg), Except.error msg)
    | Except.ok file_size_mb =>
      match env.extract_audio with
      | Except.error msg => (updateJob s job_id (errJob msg), Except.error msg)
      | Except.ok audio_path =>
        let s1 : JMState := { s with disk := s.disk ++ [audio_path] }
        match dispatch_transcribe env job.use_vad with
        | Except.error msg =>
          (_cleanup_files (updateJob s1 job_id (errJob msg)) [audio_path], Except.error msg)
        | Except.ok result =>
          let base_filename := rsplitBase job.filename
          match app_render_caption job.output_format result.words with
          | Except.error msg =>
            (_cleanup_files (updateJob s1 job_id (errJob msg)) [audio_path], Except.error msg)
          | Except.ok _caption_content =>
            let file_extension := if job.output_format = "ass" then ".ass" else ".srt"
            let result_filename := base_filename ++ "_" ++ job_id ++ file_extension
            let result_path := "static/uploads/" ++ result_filename
            match env.write_artifact with
            | Except.error msg =>
              (_cleanup_files (updateJob s1 job_id (errJob msg)) [audio_path], Except.error msg)
            | Except.ok _ =>
              let s2 : JMState := { s1 with disk := s1.disk ++ [result_path] }
              let s3 := updateJob s2 job_id (fun j =>
                { j with status := JobStatus.completed,
                         completed_at := some env.now,
                         result_path := some result_path,
                         file_size_mb := (round (file_size_mb * 100) : ℚ) / 100,
                         word_count := result.words.length,
                         language := some result.language })
              (_cleanup_files s3 [audio_path], Except.ok ())

/-- Worker phase: between dequeues; holding a dequeued job (status already
set to processing); or past the terminal status update but before the
finally block clears the marker. -/
inductive WPhase where
  | idle : WPhase
  | busy : String → WPhase
  | finishing : String → WPhase
deriving DecidableEq, Repr

/-- Whole-system state: the lock-protected JobManager state plus the
worker loop's control position.  Interleaving is modelled at lock
granularity: every registry mutation in app.py happens inside one
critical section, and each Step below is one such section (or a pure
queue/phase move). -/
structure Sys where
  jm : JMState
  phase : WPhase

/-- One atomic transition of the system: an upload request (any time), the
worker's dequeue of an evicted id (skip), the dequeue-and-start prologue,
the body of _process_single_job with its terminal status update, the
finally block clearing the marker, or a manual /api/cleanup request
(any time). -/
inductive Step (cfg : AppConfig) : Sys → Sys → Prop where
  | create (s : Sys) (now : Int) (r : CreateReq)
      (hid : r.job_id ∉ s.jm.jobs.map Prod.fst) (hq : r.job_id ∉ s.jm.job_queue) :
      Step cfg s { s with jm := upload_and_create cfg now r s.jm }
  | dequeue_skip (s : Sys) (job_id : String) (rest : List String)
      (hph : s.phase = WPhase.idle) (hq : s.jm.job_queue = job_id :: rest)
      (habs : job_id ∉ s.jm.jobs.map Prod.fst) :
      Step cfg s { jm := { s.jm with job_queue := rest, currently_processing := none },
                   phase := WPhase.idle }
  | dequeue_start (s : Sys) (now : Int) (job_id : String) (rest : List String)
      (hph : s.phase = WPhase.idle) (hq : s.jm.job_queue = job_id :: rest)
      (hres : job_id ∈ s.jm.jobs.map Prod.fst) :
      Step cfg s { jm := startJob now { s.jm with job_queue := rest } job_id,
                   phase := WPhase.busy job_id }
  | process (s : Sys) (env : ProcEnv) (job_id : String)
      (hph : s.phase = WPhase.busy job_id) :
      Step cfg s { jm := (_process_single_job env s.jm job_id).1,
                   phase := WPhase.finishing job_id }
  | finish (s : Sys) (job_id : String) (hph : s.phase = WPhase.finishing job_id) :
      Step cfg s { jm := { s.jm with currently_processing := none }, phase := WPhase.idle }
  | manual_cleanup (s : Sys) (now : Int) :
      Step cfg s { s with jm := _cleanup_old_jobs cfg now s.jm }

/-- The manager state at process start: empty registry and queue, no
marker, a given set of pre-existing files on disk. -/
def initJM (disk0 : List String) : JMState :=
  { jobs := [], job_queue := [], currently_processing := none,
    disk := disk0, deletions := [] }

/-- The system at process start: fresh manager, worker between dequeues. -/
def initSys (disk0 : List String) : Sys :=
  { jm := initJM disk0, phase := WPhase.idle }

/-- States reachable by interleaving uploads, worker steps and manual
cleanups from a fresh process. -/
def SysReachable (cfg : AppConfig) (disk0 : List String) (s : Sys) : Prop :=
  Relation.ReflTransGen (Step cfg) (initSys disk0) s

lemma removeFile_jobs (s : JMState) (p : String) : (removeFile s p).jobs = s.jobs := by
  unfold removeFile; split <;> rfl

lemma removeFile_queue (s : JMState) (p : String) :
    (removeFile s p).job_queue = s.job_queue := by
  unfold removeFile; split <;> rfl

lemma removeFile_cp (s : JMState) (p : String) :
    (removeFile s p).currently_processing = s.currently_processing := by
  unfold removeFile; split <;> rfl

lemma removeFile_disk_sublist (s : JMState) (p : String) :
    (removeFile s p).disk.Sublist s.disk := by
  unfold removeFile; split
  · exact List.filter_sublist s.disk
  · exact List.Sublist.refl _

lemma cleanup_files_jobs (l : List String) (s : JMState) :
    (_cleanup_files s l).jobs = s.jobs := by
  induction l generalizing s with
  | nil => rfl
  | cons a t ih => simpa [_cleanup_files, removeFile_jobs] using ih (removeFile s a)

lemma cleanup_files_queue (l : List String) (s : JMState) :
    (_cleanup_files s l).job_queue = s.job_queue := by
  induction l generalizing s with
  | nil => rfl
  | cons a t ih => simpa [_cleanup_files, removeFile_queue] using ih (removeFile s a)

lemma cleanup_files_cp (l : List String) (s : JMState) :
    (_cleanup_files s l).currently_processing = s.currently_processing := by
  induction l generalizing s with
  | nil => rfl
  | cons a t ih => simpa [_cleanup_files, removeFile_cp] using ih (removeFile s a)

lemma cleanup_job_files_jobs (s : JMState) (j : String) :
    (_cleanup_job_files s j).jobs = s.jobs := by
  unfold _cleanup_job_files
  rcases h : lookupJob s j with _ | job
  · rfl
  · rcases h2 : job.result_path with _ | rp <;> simp [h2, removeFile_jobs]

lemma cleanup_job_files_queue (s : JMState) (j : String) :
    (_cleanup_job_files s j).job_queue = s.job_queue := by
  unfold _cleanup_job_files
  rcases h : lookupJob s j with _ | job
  · rfl
  · rcases h2 : job.result_path with _ | rp <;> simp [h2, removeFile_queue]

lemma cleanup_job_files_cp (s : JMState) (j : String) :
    (_cleanup_job_files s j).currently_processing = s.currently_processing := by
  unfold _cleanup_job_files
  rcases h : lookupJob s j with _ | job
  · rfl
  · rcases h2 : job.result_path with _ | rp <;> simp [h2, removeFile_cp]

lemma cleanup_job_files_disk_sublist (s : JMState) (j : String) :
    (_cleanup_job_files s j).disk.Sublist s.disk := by
  unfold _cleanup_job_files
  rcases h : lookupJob s j with _ | job
  · exact List.Sublist.refl _
  · rcases h2 : job.result_path with _ | rp
    · simp only [h2]
      exact removeFile_disk_sublist s job.filepath
    · simp only [h2]
      exact (removeFile_disk_sublist _ job.filepath).trans (removeFile_disk_sublist s rp)

lemma evictOne_jobs (s : JMState) (j : String) :
    (evictOne s j).jobs = s.jobs.filter (fun p => p.1 != j) := by
  simp [evictOne, removeJob, cleanup_job_files_jobs]

lemma evictOne_queue (s : JMState) (j : String) :
    (evictOne s j).job_queue = s.job_queue := by
  simp [evictOne, removeJob, cleanup_job_files_queue]

lemma evictOne_cp (s : JMState) (j : String) :
    (evictOne s j).currently_processing = s.currently_processing := by
  simp [evictOne, removeJob, cleanup_job_files_cp]

lemma evictOne_jobs_sublist (s : JMState) (j : String) :
    (evictOne s j).jobs.Sublist s.jobs := by
  rw [evictOne_jobs]; exact List.filter_sublist s.jobs

lemma evictOne_disk_sublist (s : JMState) (j : String) :
    (evictOne s j).disk.Sublist s.disk := by
  simpa [evictOne, removeJob] using cleanup_job_files_disk_sublist s j

lemma evictLoop_jobs_sublist (m fuel : Nat) (s : JMState) :
    (evictLoop m fuel s).jobs.Sublist s.jobs := by
  induction fuel generalizing s with
  | zero => exact List.Sublist.refl _
  | succ fuel ih =>
    unfold evictLoop
    split
    · rcases h : s.jobs with _ | ⟨⟨oldest, j⟩, t⟩
      · simp [h]
      · have h2 := evictOne_jobs_sublist s oldest
        rw [h] at h2
        exact (ih (evictOne s oldest)).trans h2
    · exact List.Sublist.refl _

lemma evictLoop_queue (m fuel : Nat) (s : JMState) :
    (evictLoop m fuel s).job_queue = s.job_queue := by
  induction fuel generalizing s with
  | zero => rfl
  | succ fuel ih =>
    unfold evictLoop
    split
    · rcases h : s.jobs with _ | ⟨⟨oldest, j⟩, t⟩
      · rfl
      · rw [ih (evictOne s oldest), evictOne_queue]
    · rfl

lemma evictLoop_cp (m fuel : Nat) (s : JMState) :
    (evictLoop m fuel s).currently_processing = s.currently_processing := by
  induction fuel generalizing s with
  | zero => rfl
  | succ fuel ih =>
    unfold evictLoop
    split
    · rcases h : s.jobs with _ | ⟨⟨oldest, j⟩, t⟩
      · rfl
      · rw [ih (evictOne s oldest), evictOne_cp]
    · rfl

lemma evictLoop_disk_sublist (m fuel : Nat) (s : JMState) :
    (evictLoop m fuel s).disk.Sublist s.disk := by
  induction fuel generalizing s with
  | zero => exact List.Sublist.refl _
  | succ fuel ih =>
    unfold evictLoop
    split
    · rcases h : s.jobs with _ | ⟨⟨oldest, j⟩, t⟩
      · exact List.Sublist.refl _
      · exact (ih (evictOne s oldest)).trans (evictOne_disk_sublist s oldest)
    · exact List.Sublist.refl _

lemma evictLoop_length_lt (m : Nat) (hm : 1 ≤ m) (fuel : Nat) :
    ∀ s : JMState, s.jobs.length ≤ fuel → (evictLoop m fuel s).jobs.length < m := by
  induction fuel with
  | zero =>
    intro s hs
    have h0 : s.jobs.length = 0 := Nat.le_zero.mp hs
    simpa [evictLoop, h0] using hm
  | succ fuel ih =>
    intro s hs
    unfold evictLoop
    split
    · rcases h : s.jobs with _ | ⟨⟨oldest, j⟩, t⟩
      · rename_i hcap
        rw [h] at hcap
        simp at hcap
        omega
      · apply ih
        have hlen : (evictOne s oldest).jobs.length ≤ t.length := by
          rw [evictOne_jobs, h]
          simpa using List.length_filter_le _ t
        rw [h] at hs
        simp at hs
        omega
    · rename_i hcap
      exact Nat.lt_of_not_le hcap

lemma foldl_evictOne_jobs_sublist (l : List String) (s : JMState) :
    (l.foldl evictOne s).jobs.Sublist s.jobs := by
  induction l generalizing s with
  | nil => exact List.Sublist.refl _
  | cons a t ih =>
    exact (ih (evictOne s a)).trans (evictOne_jobs_sublist s a)

lemma foldl_evictOne_queue (l : List String) (s : JMState) :
    (l.foldl evictOne s).job_queue = s.job_queue := by
  induction l generalizing s with
  | nil => rfl
  | cons a t ih => rw [List.foldl_cons, ih (evictOne s a), evictOne_queue]

lemma foldl_evictOne_cp (l : List String) (s : JMState) :
    (l.foldl evictOne s).currently_processing = s.currently_processing := by
  induction l generalizing s with
  | nil => rfl
  | cons a t ih => rw [List.foldl_cons, ih (evictOne s a), evictOne_cp]

lemma foldl_evictOne_disk_sublist (l : List String) (s : JMState) :
    (l.foldl evictOne s).disk.Sublist s.disk := by
  induction l generalizing s with
  | nil => exact List.Sublist.refl _
  | cons a t ih =>
    exact (ih (evictOne s a)).trans (evictOne_disk_sublist s a)

lemma cleanup_old_jobs_jobs_sublist (cfg : AppConfig) (now : Int) (s : JMState) :
    (_cleanup_old_jobs cfg now s).jobs.Sublist s.jobs := by
  unfold _cleanup_old_jobs evictOverCap
  exact (evictLoop_jobs_sublist _ _ _).trans (foldl_evictOne_jobs_sublist _ s)

lemma cleanup_old_jobs_queue (cfg : AppConfig) (now : Int) (s : JMState) :
    (_cleanup_old_jobs cfg now s).job_queue = s.job_queue := by
  unfold _cleanup_old_jobs evictOverCap
  rw [evictLoop_queue, foldl_evictOne_queue]

lemma cleanup_old_jobs_cp (cfg : AppConfig) (now : Int) (s : JMState) :
    (_cleanup_old_jobs cfg now s).currently_processing = s.currently_processing := by
  unfold _cleanup_old_jobs evictOverCap
  rw [evictLoop_cp, foldl_evictOne_cp]

lemma cleanup_old_jobs_disk_sublist (cfg : AppConfig) (now : Int) (s : JMState) :
    (_cleanup_old_jobs cfg now s).disk.Sublist s.disk := by
  unfold _cleanup_old_jobs evictOverCap
  exact (evictLoop_disk_sublist _ _ _).trans (foldl_evictOne_disk_sublist _ s)

lemma cleanup_old_jobs_length_lt (cfg : AppConfig) (now : Int) (s : JMState)
    (hm : 1 ≤ cfg.MAX_JOBS_IN_MEMORY) :
    (_cleanup_old_jobs cfg now s).jobs.length < cfg.MAX_JOBS_IN_MEMORY := by
  unfold _cleanup_old_jobs evictOverCap
  exact evictLoop_length_lt _ hm _ _ (Nat.le_refl _)

lemma updateJob_keys (s : JMState) (j : String) (f : Job → Job) :
    (updateJob s j f).jobs.map Prod.fst = s.jobs.map Prod.fst := by
  simp only [updateJob, List.map_map]
  apply List.map_congr_left
  intro p _
  by_cases h : p.1 = j <;> simp [h]

lemma updateJob_queue (s : JMState) (j : String) (f : Job → Job) :
    (updateJob s j f).job_queue = s.job_queue := rfl

lemma updateJob_cp (s : JMState) (j : String) (f : Job → Job) :
    (updateJob s j f).currently_processing = s.currently_processing := rfl

lemma updateJob_disk (s : JMState) (j : String) (f : Job → Job) :
    (updateJob s j f).disk = s.disk := rfl

lemma mem_updateJob {s : JMState} {j : String} {f : Job → Job} {p : String × Job}
    (hp : p ∈ (updateJob s j f).jobs) :
    (p ∈ s.jobs ∧ p.1 ≠ j) ∨ ∃ q ∈ s.jobs, q.1 = j ∧ p = (q.1, f q.2) := by
  rcases List.mem_map.mp hp with ⟨q, hq, he⟩
  by_cases h : q.1 = j
  · right
    refine ⟨q, hq, h, ?_⟩
    rw [← he]; simp [h]
  · left
    have hpq : p = q := by rw [← he]; simp [h]
    rw [hpq]
    exact ⟨hq, h⟩

lemma lookupJob_mem {s : JMState} {j : String} {job : Job}
    (h : lookupJob s j = some job) : (j, job) ∈ s.jobs := by
  unfold lookupJob at h
  rcases hf : s.jobs.find? (fun p => p.1 == j) with _ | p
  · rw [hf] at h; simp at h
  · rw [hf] at h
    simp at h
    have hmem := List.mem_of_find?_eq_some hf
    have hpred := List.find?_some hf
    simp at hpred
    have hp : p = (j, job) := by
      rcases p with ⟨a, b⟩
      simp_all
    rwa [hp] at hmem

lemma lookupJob_none {s : JMState} {j : String} (h : lookupJob s j = none) :
    j ∉ s.jobs.map Prod.fst := by
  intro hmem
  rcases List.mem_map.mp hmem with ⟨p, hp, hfst⟩
  unfold lookupJob at h
  rcases hf : s.jobs.find? (fun q => q.1 == j) with _ | q
  · have := List.find?_eq_none.mp hf p hp
    simp [hfst] at this
  · rw [hf] at h; simp at h

lemma not_mem_removeFile_self (st : JMState) (a : String) :
    a ∉ (removeFile st a).disk := by
  unfold removeFile
  split
  · intro hmem
    have := List.of_mem_filter hmem
    simp at this
  · rename_i h; exact h

/-- Branch summary of _process_single_job: either the id was not resident
and the registry is untouched, or the registry is updated at the id by a
function that never leaves the record in processing status. -/
lemma process_jobs_cases (env : ProcEnv) (s : JMState) (j : String) :
    (lookupJob s j = none ∧ (_process_single_job env s j).1.jobs = s.jobs) ∨
    (∃ f : Job → Job, (∀ job, (f job).status ≠ JobStatus.processing) ∧
      (_process_single_job env s j).1.jobs = (updateJob s j f).jobs) := by
  unfold _process_single_job
  rcases hL : lookupJob s j with _ | job
  · exact Or.inl ⟨rfl, rfl⟩
  · right
    rcases hG : env.getsize with msg | fsz
    · exact ⟨errJob msg, fun job => by simp [errJob], by simp [hG]⟩
    · rcases hE : env.extract_audio with msg | audio
      · exact ⟨errJob msg, fun job => by simp [errJob], by simp [hG, hE]⟩
      · rcases hV : dispatch_transcribe env job.use_vad with msg | result
        · refine ⟨errJob msg, fun job => by simp [errJob], ?_⟩
          simp only [hG, hE, hV]
          rw [cleanup_files_jobs]
          rfl
        · rcases hR : app_render_caption job.output_format result.words with msg | caption
          · refine ⟨errJob msg, fun job => by simp [errJob], ?_⟩
            simp only [hG, hE, hV, hR]
            rw [cleanup_files_jobs]
            rfl
          · rcases hW : env.write_artifact with msg | u
            · refine ⟨errJob msg, fun job => by simp [errJob], ?_⟩
              simp only [hG, hE, hV, hR, hW]
              rw [cleanup_files_jobs]
              rfl
            · refine ⟨fun jb =>
                { jb with status := JobStatus.completed,
                          completed_at := some env.now,
                          result_path := some ("static/uploads/" ++
                            (rsplitBase job.filename ++ "_" ++ j ++
                              (if job.output_format = "ass" then ".ass" else ".srt"))),
                          file_size_mb := (round (fsz * 100) : ℚ) / 100,
                          word_count := result.words.length,
                          language := some result.language },
                fun job => by simp, ?_⟩
              simp only [hG, hE, hV, hR, hW]
              rw [cleanup_files_jobs]
              rfl

lemma process_keys (env : ProcEnv) (s : JMState) (j : String) :
    (_process_single_job env s j).1.jobs.map Prod.fst = s.jobs.map Prod.fst := by
  rcases process_jobs_cases env s j with ⟨_, h⟩ | ⟨f, _, h⟩
  · rw [h]
  · rw [h, updateJob_keys]

lemma process_no_processing (env : ProcEnv) (s : JMState) (j : String)
    (hOnly : ∀ p ∈ s.jobs, p.2.status = JobStatus.processing → p.1 = j) :
    ∀ p ∈ (_process_single_job env s j).1.jobs, p.2.status ≠ JobStatus.processing := by
  rcases process_jobs_cases env s j with ⟨hnone, h⟩ | ⟨f, hf, h⟩
  · rw [h]
    intro p hp hps
    exact lookupJob_none hnone
      (by rw [← hOnly p hp hps]; exact List.mem_map_of_mem _ hp)
  · rw [h]
    intro p hp hps
    rcases mem_updateJob hp with ⟨hmem, hne⟩ | ⟨q, _, _, he⟩
    · exact hne (hOnly p hmem hps)
    · rw [he] at hps
      exact hf q.2 hps

/-- When a run of _process_single_job raises msg, either the id was not
resident (KeyError, registry untouched) or the registry was updated at
the id with the error record carrying msg. -/
lemma process_error_state (env : ProcEnv) (s : JMState) (j : String) (msg : String)
    (h : (_process_single_job env s j).2 = Except.error msg) :
    (lookupJob s j = none ∧ (_process_single_job env s j).1.jobs = s.jobs) ∨
    (_process_single_job env s j).1.jobs = (updateJob s j (errJob msg)).jobs := by
  unfold _process_single_job at h ⊢
  rcases hL : lookupJob s j with _ | job
  · exact Or.inl ⟨rfl, rfl⟩
  · right
    simp only [hL] at h
    rcases hG : env.getsize with msg2 | fsz
    · simp only [hG] at h
      simp at h
      subst h
      rfl
    · simp only [hG] at h
      rcases hE : env.extract_audio with msg2 | audio
      · simp only [hE] at h
        simp at h
        subst h
        rfl
      · simp only [hE] at h
        rcases hV : dispatch_transcribe env job.use_vad with msg2 | result
        · simp only [hV] at h
          simp at h
          subst h
          simp only [hV]
          exact cleanup_files_jobs [audio]
            (updateJob { s with disk := s.disk ++ [audio] } j (errJob msg2))
        · simp only [hV] at h
          rcases hR : app_render_caption job.output_format result.words with msg2 | caption
          · simp only [hR] at h
            simp at h
            subst h
            simp only [hV, hR]
            exact cleanup_files_jobs [audio]
              (updateJob { s with disk := s.disk ++ [audio] } j (errJob msg2))
          · simp only [hR] at h
            rcases hW : env.write_artifact with msg2 | u
            · simp only [hW] at h
              simp at h
              subst h
              simp only [hV, hR, hW]
              exact cleanup_files_jobs [audio]
                (updateJob { s with disk := s.disk ++ [audio] } j (errJob msg2))
            · simp only [hW] at h
              simp at h

/-- A raised failure is recorded on the resident record: status error and
the failure description as the message. -/
lemma process_error_record (env : ProcEnv) (s : JMState) (j : String) (msg : String)
    (h : (_process_single_job env s j).2 = Except.error msg) :
    ∀ job, (j, job) ∈ (_process_single_job env s j).1.jobs →
      job.status = JobStatus.error ∧ job.error_message = some msg := by
  rcases process_error_state env s j msg h with ⟨hnone, hj⟩ | hj
  · intro job hmem
    rw [hj] at hmem
    exact absurd (List.mem_map_of_mem Prod.fst hmem) (lookupJob_none hnone)
  · intro job hmem
    rw [hj] at hmem
    rcases mem_updateJob hmem with ⟨_, hne⟩ | ⟨q, _, _, he⟩
    · exact absurd rfl hne
    · have hsnd : job = errJob msg q.2 := by
        have := congrArg Prod.snd he
        simpa using this
      rw [hsnd]
      simp [errJob]

/-- Whatever the outcome, a temporary audio file that the run created is
absent afterwards (and a run that failed before creating it never added
it). -/
lemma process_temp_removed (env : ProcEnv) (s : JMState) (j : String) (audio : String)
    (hex : env.extract_audio = Except.ok audio) (hd : audio ∉ s.disk) :
    audio ∉ (_process_single_job env s j).1.disk := by
  unfold _process_single_job
  rcases hL : lookupJob s j with _ | job
  · exact hd
  · rcases hG : env.getsize with msg | fsz
    · exact hd
    · rcases hV : dispatch_transcribe env job.use_vad with msg | result
      · simp only [hex, hV]
        exact not_mem_removeFile_self _ audio
      · rcases hR : app_render_caption job.output_format result.words with msg | caption
        · simp only [hex, hV, hR]
          exact not_mem_removeFile_self _ audio
        · rcases hW : env.write_artifact with msg | u
          · simp only [hex, hV, hR, hW]
            exact not_mem_removeFile_self _ audio
          · simp only [hex, hV, hR, hW]
            exact not_mem_removeFile_self _ audio

lemma startJob_jobs (now : Int) (s : JMState) (j : String) :
    (startJob now s j).jobs =
      (updateJob s j
        (fun jb => { jb with status := JobStatus.processing, started_at := some now })).jobs := rfl

lemma jm_set_queue_jobs (s : JMState) (q : List String) :
    ({ s with job_queue := q } : JMState).jobs = s.jobs := rfl

/-- Inductive invariant of the system: registry keys are unique (they are
uuid4 values, and the registry is a dictionary), and the worker phase
bounds which records can be in processing status — only the held id while
the worker is busy, and none at all while it is between jobs or past the
terminal update. -/
def SysInv (sys : Sys) : Prop :=
  (sys.jm.jobs.map Prod.fst).Nodup ∧
  (∀ j, sys.phase = WPhase.busy j →
    ∀ p ∈ sys.jm.jobs, p.2.status = JobStatus.processing → p.1 = j) ∧
  ((∀ j, sys.phase ≠ WPhase.busy j) →
    ∀ p ∈ sys.jm.jobs, p.2.status ≠ JobStatus.processing)

lemma sysInv_init (disk0 : List String) : SysInv (initSys disk0) := by
  refine ⟨by simp [initSys, initJM], ?_, ?_⟩
  · intro j _ p hp
    simp [initSys, initJM] at hp
  · intro _ p hp
    simp [initSys, initJM] at hp

lemma sysInv_step {cfg : AppConfig} {s t : Sys} (hs : SysInv s) (hstep : Step cfg s t) :
    SysInv t := by
  obtain ⟨hnd, hbusy, hnone⟩ := hs
  cases hstep with
  | create now r hid hq =>
    have hsub := cleanup_old_jobs_jobs_sublist cfg now
      { s.jm with disk := s.jm.disk ++ [r.filepath] }
    have hnd1 : ((_cleanup_old_jobs cfg now
        { s.jm with disk := s.jm.disk ++ [r.filepath] }).jobs.map Prod.fst).Nodup :=
      hnd.sublist (hsub.map Prod.fst)
    have hnotin : r.job_id ∉ (_cleanup_old_jobs cfg now
        { s.jm with disk := s.jm.disk ++ [r.filepath] }).jobs.map Prod.fst :=
      fun hmem => hid ((hsub.map Prod.fst).subset hmem)
    have hjobs : (upload_and_create cfg now r s.jm).jobs =
        (_cleanup_old_jobs cfg now { s.jm with disk := s.jm.disk ++ [r.filepath] }).jobs ++
          [(r.job_id, newJob r.job_id r.filename r.filepath r.output_format r.use_vad now)] :=
      rfl
    refine ⟨?_, ?_, ?_⟩
    · show ((upload_and_create cfg now r s.jm).jobs.map Prod.fst).Nodup
      rw [hjobs, List.map_append]
      refine List.Nodup.append hnd1 (by simp) ?_
      intro x hx hxa
      simp at hxa
      subst hxa
      exact hnotin hx
    · intro j hj p hp hps
      rw [hjobs] at hp
      rcases List.mem_append.mp hp with hp1 | hp1
      · exact hbusy j hj p (hsub.subset hp1) hps
      · simp at hp1
        rw [hp1] at hps
        simp [newJob] at hps
    · intro hnb p hp hps
      rw [hjobs] at hp
      rcases List.mem_append.mp hp with hp1 | hp1
      · exact hnone hnb p (hsub.subset hp1) hps
      · simp at hp1
        rw [hp1] at hps
        simp [newJob] at hps
  | dequeue_skip job_id rest hph hq habs =>
    refine ⟨hnd, ?_, ?_⟩
    · intro j hj
      exact absurd hj (by simp)
    · intro _ p hp
      refine hnone ?_ p hp
      intro j hc
      rw [hph] at hc
      exact WPhase.noConfusion hc
  | dequeue_start now job_id rest hph hq hres =>
    have hNP : ∀ p ∈ s.jm.jobs, p.2.status ≠ JobStatus.processing := by
      refine hnone ?_
      intro j hc
      rw [hph] at hc
      exact WPhase.noConfusion hc
    refine ⟨?_, ?_, ?_⟩
    · show (((startJob now { s.jm with job_queue := rest } job_id).jobs).map Prod.fst).Nodup
      rw [startJob_jobs, updateJob_keys, jm_set_queue_jobs]
      exact hnd
    · intro j hj p hp hps
      have hjj : j = job_id := by
        simp at hj
        exact hj.symm
      subst hjj
      rw [startJob_jobs] at hp
      rcases mem_updateJob hp with ⟨hmem, hne⟩ | ⟨q, hqmem, hqj, he⟩
      · rw [jm_set_queue_jobs] at hmem
        exact absurd hps (hNP p hmem)
      · rw [he]
        exact hqj
    · intro hnb
      exact absurd rfl (hnb job_id)
  | process env job_id hph =>
    refine ⟨?_, ?_, ?_⟩
    · show (((_process_single_job env s.jm job_id).1.jobs).map Prod.fst).Nodup
      rw [process_keys]
      exact hnd
    · intro j hj
      exact absurd hj (by simp)
    · intro _
      exact process_no_processing env s.jm job_id (hbusy job_id hph)
  | finish job_id hph =>
    refine ⟨hnd, ?_, ?_⟩
    · intro j hj
      exact absurd hj (by simp)
    · intro _ p hp
      refine hnone ?_ p hp
      intro j hc
      rw [hph] at hc
      exact WPhase.noConfusion hc
  | manual_cleanup now =>
    have hsub := cleanup_old_jobs_jobs_sublist cfg now s.jm
    refine ⟨hnd.sublist (hsub.map Prod.fst), ?_, ?_⟩
    · intro j hj p hp hps
      exact hbusy j hj p (hsub.subset hp) hps
    · intro hnb p hp hps
      exact hnone hnb p (hsub.subset hp) hps

lemma sysInv_reachable {cfg : AppConfig} {disk0 : List String} {s : Sys}
    (h : SysReachable cfg disk0 s) : SysInv s := by
  induction h with
  | refl => exact sysInv_init disk0
  | tail _ hstep ih => exact sysInv_step ih hstep

/-- A filtered sublist of a registry with unique keys all of whose members
share one key has at most one element. -/
lemma length_filter_le_one {l : List (String × Job)} {j : String}
    (hnd : (l.map Prod.fst).Nodup) (pred : String × Job → Bool)
    (hall : ∀ p ∈ l.filter pred, p.1 = j) : (l.filter pred).length ≤ 1 := by
  rcases hf : l.filter pred with _ | ⟨a, t⟩
  · simp
  · rcases t with _ | ⟨b, t2⟩
    · simp
    · exfalso
      have hsubnd : ((l.filter pred).map Prod.fst).Nodup :=
        hnd.sublist ((List.filter_sublist l).map Prod.fst)
      rw [hf] at hsubnd
      have ha : a.1 = j := hall a (by rw [hf]; simp)
      have hb : b.1 = j := hall b (by rw [hf]; simp)
      rw [List.map_cons, List.map_cons, ha, hb] at hsubnd
      simp [List.Nodup] at hsubnd

/-- C9: for every audio path, the VAD-path call and the no-VAD-path call
of transcribe.py reduce to the identical underlying call
transcribe_file(audio_path, language=None, word_timestamps=True); in
particular the two calls made by _process_single_job (chunk_size=200 on
the VAD branch, word_timestamps=True and use_large_model=True on the
other) coincide, so the useVoiceActivityDetection flag does not change
the transcription result. -/
theorem transcribe_vad_paths_converge (t : Transcriber) (audio_path : String)
    (language : Option String) (chunk_size : Nat)
    (word_timestamps use_large_model : Bool) :
    t.transcribe_large_file audio_path language chunk_size =
      t.transcribe_file audio_path language true ∧
    t.transcribe_file_no_vad audio_path word_timestamps use_large_model =
      t.transcribe_file audio_path none word_timestamps ∧
    t.transcribe_large_file audio_path none 200 =
      t.transcribe_file_no_vad audio_path true true :=
  ⟨rfl, rfl, rfl⟩

lemma findIdx?_first (job_id : String) (back : List String) :
    ∀ front : List String, job_id ∉ front →
      (front ++ job_id :: back).findIdx? (fun q => q == job_id) = some front.length := by
  intro front
  induction front with
  | nil => intro _; simp [List.findIdx?_cons]
  | cons a t ih =>
    intro hnf
    rw [List.mem_cons, not_or] at hnf
    have ha : (a == job_id) = false := by
      simp only [beq_eq_false_iff_ne, ne_eq]
      exact fun h => hnf.1 h.symm
    simp [List.findIdx?_cons, ha, ih hnf.2]

lemma findIdx?_none_of_not_mem (job_id : String) :
    ∀ l : List String, job_id ∉ l → l.findIdx? (fun q => q == job_id) = none := by
  intro l
  induction l with
  | nil => intro _; rfl
  | cons a t ih =>
    intro h
    rw [List.mem_cons, not_or] at h
    have ha : (a == job_id) = false := by
      simp only [beq_eq_false_iff_ne, ne_eq]
      exact fun hh => h.1 hh.symm
    simp [List.findIdx?_cons, ha, ih h.2]

/-- C7: queue position semantics of get_queue_position.  A non-resident id
reports -1.  For a resident id: the position is 0 exactly when the id is
the currently-processing marker; a queued id with exactly k ids ahead of
it (and not currently processing) reports k + 1, so a job behind 2 others
reports 3; an id absent from the queue and not currently processing
(terminal) reports -1. -/
theorem get_queue_position_spec (s : JMState) (job_id : String) :
    (job_id ∉ s.jobs.map Prod.fst → get_queue_position s job_id = -1) ∧
    (job_id ∈ s.jobs.map Prod.fst →
      ((get_queue_position s job_id = 0 ↔ s.currently_processing = some job_id) ∧
       (∀ front back, s.job_queue = front ++ job_id :: back → job_id ∉ front →
          s.currently_processing ≠ some job_id →
          get_queue_position s job_id = (front.length : Int) + 1) ∧
       (job_id ∉ s.job_queue → s.currently_processing ≠ some job_id →
          get_queue_position s job_id = -1))) := by
  constructor
  · intro habs
    simp [get_queue_position, habs]
  · intro hres
    refine ⟨?_, ?_, ?_⟩
    · unfold get_queue_position
      rw [if_pos hres]
      by_cases hcp : s.currently_processing = some job_id
      · rcases hidx : s.job_queue.findIdx? (fun q => q == job_id) with _ | idx <;>
          simp [hcp]
      · rcases hidx : s.job_queue.findIdx? (fun q => q == job_id) with _ | idx
        · simp [hcp]
        · simp [hcp]
          omega
    · intro front back hq hnf hcp
      unfold get_queue_position
      rw [if_pos hres, hq, findIdx?_first job_id back front hnf]
      simp [hcp]
    · intro hnq hcp
      unfold get_queue_position
      rw [if_pos hres, findIdx?_none_of_not_mem job_id s.job_queue hnq]
      simp [hcp]

/-- Example state for the queue-position scenario: j0 is being processed,
j1, j2, j3 wait in the queue in order. -/
def c7state : JMState :=
  { jobs := [("j0", newJob "j0" "a0.mp4" "p0" "srt" true 0),
             ("j1", newJob "j1" "a1.mp4" "p1" "srt" true 0),
             ("j2", newJob "j2" "a2.mp4" "p2" "srt" true 0),
             ("j3", newJob "j3" "a3.mp4" "p3" "srt" true 0)],
    job_queue := ["j1", "j2", "j3"], currently_processing := some "j0",
    disk := [], deletions := [] }

theorem get_queue_position_spec_witness :
    get_queue_position c7state "j3" = ((["j1", "j2"] : List String).length : Int) + 1 ∧
    get_queue_position c7state "j0" = 0 ∧
    get_queue_position c7state "nope" = -1 := by
  refine ⟨?_, ?_, ?_⟩
  · exact ((get_queue_position_spec c7state "j3").2 (by decide)).2.1
      ["j1", "j2"] [] rfl (by decide) (by decide)
  · exact ((get_queue_position_spec c7state "j0").2 (by decide)).1.mpr rfl
  · exact (get_queue_position_spec c7state "nope").1 (by decide)

/-- C5: in every reachable state — under any interleaving of uploads,
worker steps and manual cleanups — at most one resident job has status
processing, and whenever the worker is about to dequeue (phase idle) no
resident job is processing: the previously processed job, if still
resident, has already reached a terminal status. -/
theorem at_most_one_processing (cfg : AppConfig) (disk0 : List String) (s : Sys)
    (h : SysReachable cfg disk0 s) :
    (s.jm.jobs.filter (fun p => p.2.status == JobStatus.processing)).length ≤ 1 ∧
    (s.phase = WPhase.idle → ∀ p ∈ s.jm.jobs, p.2.status ≠ JobStatus.processing) := by
  obtain ⟨hnd, hbusy, hnone⟩ := sysInv_reachable h
  constructor
  · rcases hph : s.phase with _ | j | j
    · have hNP := hnone (by intro j hc; rw [hph] at hc; exact WPhase.noConfusion hc)
      have hnil : s.jm.jobs.filter (fun p => p.2.status == JobStatus.processing) = [] := by
        apply List.filter_eq_nil.mpr
        intro p hp
        simpa using hNP p hp
      simp [hnil]
    · exact length_filter_le_one hnd _ (fun p hp =>
        hbusy j hph p (List.mem_of_mem_filter hp) (by simpa using List.of_mem_filter hp))
    · have hNP := hnone (by intro j2 hc; rw [hph] at hc; exact WPhase.noConfusion hc)
      have hnil : s.jm.jobs.filter (fun p => p.2.status == JobStatus.processing) = [] := by
        apply List.filter_eq_nil.mpr
        intro p hp
        simpa using hNP p hp
      simp [hnil]
  · intro hph
    exact hnone (by intro j hc; rw [hph] at hc; exact WPhase.noConfusion hc)

/-- Example upload request for the serialization witness. -/
def c5req : CreateReq :=
  { job_id := "j1", filename := "a.mp4", filepath := "static/uploads/u1_a.mp4",
    output_format := "srt", use_vad := true }

/-- The system after one upload from a fresh start. -/
def c5sys : Sys :=
  { jm := upload_and_create appConfig 0 c5req (initSys []).jm, phase := WPhase.idle }

theorem at_most_one_processing_witness :
    (c5sys.jm.jobs.filter (fun p => p.2.status == JobStatus.processing)).length ≤ 1 ∧
    (c5sys.phase = WPhase.idle →
      ∀ p ∈ c5sys.jm.jobs, p.2.status ≠ JobStatus.processing) :=
  at_most_one_processing appConfig [] c5sys
    (Relation.ReflTransGen.single
      (Step.create (initSys []) 0 c5req (by simp [initSys, initJM]) (by simp [initSys, initJM])))

/-- C6: a failure raised while processing a job is recorded on that job's
record (status error with the failure's description) and does not escape
the worker loop: the loop can take its finishing and idle steps, and from
idle it can dequeue and start any queued resident job. -/
theorem worker_survives_failure (cfg : AppConfig) (s : Sys) (env : ProcEnv)
    (job_id msg : String) (hph : s.phase = WPhase.busy job_id)
    (hfail : (_process_single_job env s.jm job_id).2 = Except.error msg) :
    Step cfg s { jm := (_process_single_job env s.jm job_id).1,
                 phase := WPhase.finishing job_id } ∧
    Step cfg { jm := (_process_single_job env s.jm job_id).1,
               phase := WPhase.finishing job_id }
      { jm := { (_process_single_job env s.jm job_id).1 with currently_processing := none },
        phase := WPhase.idle } ∧
    (∀ job, (job_id, job) ∈ (_process_single_job env s.jm job_id).1.jobs →
       job.status = JobStatus.error ∧ job.error_message = some msg) ∧
    (∀ j2 rest now,
       ({ (_process_single_job env s.jm job_id).1 with
           currently_processing := none } : JMState).job_queue = j2 :: rest →
       j2 ∈ ({ (_process_single_job env s.jm job_id).1 with
           currently_processing := none } : JMState).jobs.map Prod.fst →
       Step cfg
         { jm := { (_process_single_job env s.jm job_id).1 with currently_processing := none },
           phase := WPhase.idle }
         { jm := startJob now
             { ({ (_process_single_job env s.jm job_id).1 with
                 currently_processing := none } : JMState) with job_queue := rest } j2,
           phase := WPhase.busy j2 }) := by
  refine ⟨Step.process s env job_id hph, ?_, process_error_record env s.jm job_id msg hfail, ?_⟩
  · exact Step.finish _ job_id rfl
  · intro j2 rest now hq hres
    exact Step.dequeue_start _ now j2 rest rfl hq hres

/-- State for the failure-isolation witness: the worker holds j1, j2 waits
in the queue, transcription of j1 is about to fail. -/
def c6sys : Sys :=
  { jm := { jobs := [("j1", { newJob "j1" "a1.mp4" "p1" "srt" true 0 with
                               status := JobStatus.processing }),
                     ("j2", newJob "j2" "a2.mp4" "p2" "srt" true 0)],
            job_queue := ["j2"], currently_processing := some "j1",
            disk := ["p1", "p2"], deletions := [] },
    phase := WPhase.busy "j1" }

/-- Environment whose transcription step raises. -/
def c6env : ProcEnv :=
  { getsize := Except.ok 1, extract_audio := Except.ok "tmp6.wav",
    transcribe_large_file := Except.error "transcription ran out of memory",
    transcribe_file_no_vad := Except.error "transcription ran out of memory",
    write_artifact := Except.ok (), now := 7 }

theorem worker_survives_failure_witness :
    Step appConfig c6sys { jm := (_process_single_job c6env c6sys.jm "j1").1,
                           phase := WPhase.finishing "j1" } ∧
    Step appConfig { jm := (_process_single_job c6env c6sys.jm "j1").1,
                     phase := WPhase.finishing "j1" }
      { jm := { (_process_single_job c6env c6sys.jm "j1").1 with currently_processing := none },
        phase := WPhase.idle } ∧
    (∀ job, ("j1", job) ∈ (_process_single_job c6env c6sys.jm "j1").1.jobs →
       job.status = JobStatus.error ∧
       job.error_message = some "transcription ran out of memory") ∧
    (∀ j2 rest now,
       ({ (_process_single_job c6env c6sys.jm "j1").1 with
           currently_processing := none } : JMState).job_queue = j2 :: rest →
       j2 ∈ ({ (_process_single_job c6env c6sys.jm "j1").1 with
           currently_processing := none } : JMState).jobs.map Prod.fst →
       Step appConfig
         { jm := { (_process_single_job c6env c6sys.jm "j1").1 with currently_processing := none },
           phase := WPhase.idle }
         { jm := startJob now
             { ({ (_process_single_job c6env c6sys.jm "j1").1 with
                 currently_processing := none } : JMState) with job_queue := rest } j2,
           phase := WPhase.busy j2 }) :=
  worker_survives_failure appConfig c6sys c6env "j1" "transcription ran out of memory" rfl rfl

lemma string_foldl_shift : ∀ (t : List String) (acc : String),
    t.foldl (· ++ ·) acc = acc ++ t.foldl (· ++ ·) "" := by
  intro t
  induction t with
  | nil => intro acc; simp
  | cons x t ih =>
    intro acc
    rw [List.foldl_cons, List.foldl_cons, ih ("" ++ x), ih (acc ++ x)]
    simp [String.append_assoc]

lemma string_join_cons (x : String) (t : List String) :
    String.join (x :: t) = x ++ String.join t := by
  show (x :: t).foldl (· ++ ·) "" = x ++ t.foldl (· ++ ·) ""
  rw [List.foldl_cons, string_foldl_shift t ("" ++ x)]
  simp

lemma foldl_append_eq_join {α : Type} (g : α → String) :
    ∀ (l : List α) (acc : String),
      l.foldl (fun a x => a ++ g x) acc = acc ++ String.join (l.map g) := by
  intro l
  induction l with
  | nil => intro acc; simp [String.join]
  | cons x t ih =>
    intro acc
    rw [List.foldl_cons, ih (acc ++ g x), List.map_cons, string_join_cons]
    simp [String.append_assoc]

/-- Modelled from the spec (section 6 caption contract): one SRT entry,
index newline, timestamps newline, text newline. -/
def srtSpecEntry (i : Nat) (w : Word) : String :=
  toString i ++ "\n" ++ _format_timestamp w.start ++ " --> " ++
    _format_timestamp w.«end» ++ "\n" ++ w.text ++ "\n"

/-- Modelled from the spec: the whole SRT document — one entry per input
word with sequential 1-based numbers, each entry followed by the blank
line that separates it from the next. -/
def srtSpecRender (words : List Word) : String :=
  String.join ((words.enumFrom 1).map (fun iw => srtSpecEntry iw.1 iw.2 ++ "\n"))

/-- C8: words_to_srt renders exactly the spec's SRT contract — one entry
per input word, sequential 1-based numbers, each entry of the form
index newline HH:MM:SS,mmm --> HH:MM:SS,mmm newline text newline, with a
blank line between entries — and on the 3-word scenario transcript the
output is exactly the three entries numbered 1, 2, 3 with first timestamp
line 00:00:00,000 --> 00:00:00,400. -/
theorem words_to_srt_spec :
    (∀ words : List Word, words_to_srt words = srtSpecRender words) ∧
    words_to_srt [⟨"hi", 0, 0.4⟩, ⟨"there", 0.4, 0.9⟩, ⟨"!", 0.9, 1.0⟩] =
      "1\n00:00:00,000 --> 00:00:00,400\nhi\n\n" ++
      "2\n00:00:00,400 --> 00:00:00,900\nthere\n\n" ++
      "3\n00:00:00,900 --> 00:00:01,000\n!\n\n" := by
  have hgen : ∀ words : List Word, words_to_srt words = srtSpecRender words := by
    intro words
    unfold words_to_srt srtSpecRender
    rw [List.foldl_ext (g := fun a (iw : Nat × Word) => a ++ (srtSpecEntry iw.1 iw.2 ++ "\n"))]
    · rw [foldl_append_eq_join]
      simp
    · intro a iw _
      simp only [srtSpecEntry, show ("\n\n" : String) = "\n" ++ "\n" from rfl,
        String.append_assoc]
  constructor
  · exact hgen
  · have h0 : _format_timestamp 0 = "00:00:00,000" := by
      norm_num [_format_timestamp, pyFloorDiv, pyMod]; decide
    have h4 : _format_timestamp 0.4 = "00:00:00,400" := by
      norm_num [_format_timestamp, pyFloorDiv, pyMod]; decide
    have h9 : _format_timestamp 0.9 = "00:00:00,900" := by
      norm_num [_format_timestamp, pyFloorDiv, pyMod]; decide
    have h1 : _format_timestamp 1.0 = "00:00:01,000" := by
      norm_num [_format_timestamp, pyFloorDiv, pyMod]; decide
    rw [hgen]
    unfold srtSpecRender srtSpecEntry
    simp only [List.enumFrom, List.map_cons, List.map_nil]
    rw [h0, h4, h9, h1]
    decide

/-- With every resident job fresh and the registry at or over capacity,
the cleanup path evicts the head (oldest-inserted) job: its record leaves
the registry and its source file leaves the disk. -/
lemma cleanup_evicts_fresh_head (cfg : AppConfig) (now : Int) (s : JMState)
    (jid : String) (job : Job) (rest : List (String × Job))
    (hfresh : ∀ p ∈ s.jobs, ¬(p.2.created_at < now - (cfg.JOB_CLEANUP_HOURS : Int) * 3600))
    (hhead : s.jobs = (jid, job) :: rest)
    (hcap : cfg.MAX_JOBS_IN_MEMORY ≤ s.jobs.length) :
    jid ∉ (_cleanup_old_jobs cfg now s).jobs.map Prod.fst ∧
    job.filepath ∉ (_cleanup_old_jobs cfg now s).disk := by
  have hage : s.jobs.filter
      (fun p => decide (p.2.created_at < now - (cfg.JOB_CLEANUP_HOURS : Int) * 3600)) = [] :=
    List.filter_eq_nil.mpr (fun p hp => by simpa using hfresh p hp)
  have hcleanup : _cleanup_old_jobs cfg now s =
      evictLoop cfg.MAX_JOBS_IN_MEMORY s.jobs.length s := by
    simp only [_cleanup_old_jobs, evictOverCap, hage, List.map_nil, List.foldl_nil]
  have hlen : s.jobs.length = rest.length + 1 := by rw [hhead]; rfl
  have hone : evictLoop cfg.MAX_JOBS_IN_MEMORY (rest.length + 1) s =
      evictLoop cfg.MAX_JOBS_IN_MEMORY rest.length (evictOne s jid) := by
    simp only [evictLoop]
    rw [if_pos hcap, hhead]
  have hlook : lookupJob s jid = some job := by
    unfold lookupJob
    rw [hhead]
    simp
  have hkeys1 : jid ∉ (evictOne s jid).jobs.map Prod.fst := by
    rw [evictOne_jobs]
    intro hmem
    rcases List.mem_map.mp hmem with ⟨p, hp, hfst⟩
    have hpred := List.of_mem_filter hp
    rw [hfst] at hpred
    simp at hpred
  have hdisk1 : job.filepath ∉ (evictOne s jid).disk := by
    show job.filepath ∉ (_cleanup_job_files s jid).disk
    unfold _cleanup_job_files
    rw [hlook]
    rcases hrp : job.result_path with _ | rp
    · exact not_mem_removeFile_self _ _
    · exact not_mem_removeFile_self _ _
  rw [hcleanup, hlen, hone]
  constructor
  · intro hmem
    exact hkeys1 (((evictLoop_jobs_sublist _ _ _).map Prod.fst).subset hmem)
  · intro hmem
    exact hdisk1 ((evictLoop_disk_sublist _ _ _).subset hmem)

/-- A full registry of five fresh jobs; the oldest, j1, is the one the
worker is currently processing. -/
def c2state : JMState :=
  { jobs := [("j1", { newJob "j1" "a1.mp4" "p1" "srt" true 0 with
                       status := JobStatus.processing }),
             ("j2", newJob "j2" "a2.mp4" "p2" "srt" true 0),
             ("j3", newJob "j3" "a3.mp4" "p3" "srt" true 0),
             ("j4", newJob "j4" "a4.mp4" "p4" "srt" true 0),
             ("j5", newJob "j5" "a5.mp4" "p5" "srt" true 0)],
    job_queue := [], currently_processing := some "j1",
    disk := ["p1", "p2", "p3", "p4", "p5"], deletions := [] }

/-- C2 counterexample: on a full registry of fresh jobs whose oldest entry
is the currently-processing job, one run of the cleanup path evicts that
very job and deletes its file — refuting the claim that eviction never
removes the job being processed. -/
theorem eviction_spares_processing_counterexample :
    c2state.currently_processing = some "j1" ∧
    "j1" ∈ c2state.jobs.map Prod.fst ∧
    "j1" ∉ (_cleanup_old_jobs appConfig 0 c2state).jobs.map Prod.fst ∧
    "p1" ∉ (_cleanup_old_jobs appConfig 0 c2state).disk ∧
    "p1" ∈ (_cleanup_old_jobs appConfig 0 c2state).deletions :=
  ⟨rfl, by decide, by decide, by decide, by decide⟩

/-- C2 amended: the cleanup path never consults the currently-processing
marker; whenever the currently-processing job is the oldest resident of a
fresh registry at or over capacity, eviction removes its record and
deletes its source file. -/
theorem eviction_can_remove_processing (cfg : AppConfig) (now : Int) (s : JMState)
    (jid : String) (job : Job) (rest : List (String × Job))
    (hcp : s.currently_processing = some jid)
    (hfresh : ∀ p ∈ s.jobs, ¬(p.2.created_at < now - (cfg.JOB_CLEANUP_HOURS : Int) * 3600))
    (hhead : s.jobs = (jid, job) :: rest)
    (hcap : cfg.MAX_JOBS_IN_MEMORY ≤ s.jobs.length) :
    s.currently_processing = some jid ∧
    jid ∉ (_cleanup_old_jobs cfg now s).jobs.map Prod.fst ∧
    job.filepath ∉ (_cleanup_old_jobs cfg now s).disk :=
  ⟨hcp, (cleanup_evicts_fresh_head cfg now s jid job rest hfresh hhead hcap).1,
    (cleanup_evicts_fresh_head cfg now s jid job rest hfresh hhead hcap).2⟩

theorem eviction_can_remove_processing_witness :
    c2state.currently_processing = some "j1" ∧
    "j1" ∉ (_cleanup_old_jobs appConfig 0 c2state).jobs.map Prod.fst ∧
    ({ newJob "j1" "a1.mp4" "p1" "srt" true 0 with
        status := JobStatus.processing } : Job).filepath ∉
      (_cleanup_old_jobs appConfig 0 c2state).disk :=
  eviction_can_remove_processing appConfig 0 c2state "j1"
    { newJob "j1" "a1.mp4" "p1" "srt" true 0 with status := JobStatus.processing }
    [("j2", newJob "j2" "a2.mp4" "p2" "srt" true 0),
     ("j3", newJob "j3" "a3.mp4" "p3" "srt" true 0),
     ("j4", newJob "j4" "a4.mp4" "p4" "srt" true 0),
     ("j5", newJob "j5" "a5.mp4" "p5" "srt" true 0)]
    rfl (by decide) rfl (by decide)

/-- C10: every invocation of the cleanup path leaves the registry with
strictly fewer than MAX_JOBS_IN_MEMORY records; and on a fresh registry at
or over capacity — where no resident job exceeds the age threshold — it
still evicts the oldest-inserted job and deletes its file. -/
theorem cleanup_leaves_below_capacity (cfg : AppConfig) (now : Int) (s : JMState)
    (hm : 1 ≤ cfg.MAX_JOBS_IN_MEMORY) :
    ((_cleanup_old_jobs cfg now s).jobs.length < cfg.MAX_JOBS_IN_MEMORY) ∧
    (∀ jid job rest,
      (∀ p ∈ s.jobs, ¬(p.2.created_at < now - (cfg.JOB_CLEANUP_HOURS : Int) * 3600)) →
      s.jobs = (jid, job) :: rest →
      cfg.MAX_JOBS_IN_MEMORY ≤ s.jobs.length →
      jid ∉ (_cleanup_old_jobs cfg now s).jobs.map Prod.fst ∧
      job.filepath ∉ (_cleanup_old_jobs cfg now s).disk) :=
  ⟨cleanup_old_jobs_length_lt cfg now s hm,
   fun jid job rest hfresh hhead hcap =>
     cleanup_evicts_fresh_head cfg now s jid job rest hfresh hhead hcap⟩

theorem cleanup_leaves_below_capacity_witness :
    ((_cleanup_old_jobs appConfig 0 c2state).jobs.length <
      appConfig.MAX_JOBS_IN_MEMORY) ∧
    ("j1" ∉ (_cleanup_old_jobs appConfig 0 c2state).jobs.map Prod.fst ∧
     ({ newJob "j1" "a1.mp4" "p1" "srt" true 0 with
         status := JobStatus.processing } : Job).filepath ∉
       (_cleanup_old_jobs appConfig 0 c2state).disk) :=
  ⟨(cleanup_leaves_below_capacity appConfig 0 c2state (by decide)).1,
   (cleanup_leaves_below_capacity appConfig 0 c2state (by decide)).2
     "j1" { newJob "j1" "a1.mp4" "p1" "srt" true 0 with status := JobStatus.processing }
     [("j2", newJob "j2" "a2.mp4" "p2" "srt" true 0),
      ("j3", newJob "j3" "a3.mp4" "p3" "srt" true 0),
      ("j4", newJob "j4" "a4.mp4" "p4" "srt" true 0),
      ("j5", newJob "j5" "a5.mp4" "p5" "srt" true 0)]
     (by decide) rfl (by decide)⟩

/-- A registry holding one ass-format job about to be processed. -/
def c1state : JMState :=
  { jobs := [("j1", { newJob "j1" "clip.mp4" "static/uploads/u1_clip.mp4" "ass" true 0 with
                       status := JobStatus.processing })],
    job_queue := [], currently_processing := some "j1",
    disk := ["static/uploads/u1_clip.mp4"], deletions := [] }

/-- An environment in which every external step succeeds: the file-size
probe, audio extraction, both transcription entry points and the artifact
write. -/
def c1env : ProcEnv :=
  { getsize := Except.ok 1, extract_audio := Except.ok "tmp1.wav",
    transcribe_large_file :=
      Except.ok { words := [⟨"hi", 0, 0.4⟩], language := "en", duration := 1 },
    transcribe_file_no_vad :=
      Except.ok { words := [⟨"hi", 0, 0.4⟩], language := "en", duration := 1 },
    write_artifact := Except.ok (), now := 5 }

/-- C1: an outputFormat = ass job whose extraction, transcription and
artifact write would all succeed still ends in status error, because the
rendering step evaluates the name words_to_ass_advanced, which app.py
never imports — the job never reaches completed and no ASS artifact is
rendered. -/
theorem ass_format_job_errors :
    (_process_single_job c1env c1state "j1").2 =
      Except.error "NameError: words_to_ass_advanced is not defined" ∧
    ((_process_single_job c1env c1state "j1").1.jobs.map (fun p => (p.1, p.2.status))) =
      [("j1", JobStatus.error)] ∧
    (∀ job, ("j1", job) ∈ (_process_single_job c1env c1state "j1").1.jobs →
       job.status ≠ JobStatus.completed ∧
       job.error_message = some "NameError: words_to_ass_advanced is not defined") := by
  refine ⟨rfl, rfl, ?_⟩
  intro job hmem
  have hl : (_process_single_job c1env c1state "j1").1.jobs =
      [("j1", errJob "NameError: words_to_ass_advanced is not defined"
        { newJob "j1" "clip.mp4" "static/uploads/u1_clip.mp4" "ass" true 0 with
           status := JobStatus.processing })] := rfl
  rw [hl] at hmem
  simp at hmem
  rw [hmem]
  exact ⟨by decide, rfl⟩

/-- C4: fix a run whose audio extraction succeeded, creating the fresh
temporary file audio.  If any later step raises, the temporary file is
absent from the temp directory afterwards and the resident record shows
status error with the (non-empty) failure description; and when the job
completes successfully the very same temp-file removal also happens. -/
theorem temp_audio_always_cleaned (env : ProcEnv) (s : JMState) (job_id audio : String)
    (hex : env.extract_audio = Except.ok audio) (hfreshtmp : audio ∉ s.disk) :
    (∀ msg, msg ≠ "" → (_process_single_job env s job_id).2 = Except.error msg →
       audio ∉ (_process_single_job env s job_id).1.disk ∧
       ∀ job, (job_id, job) ∈ (_process_single_job env s job_id).1.jobs →
         job.status = JobStatus.error ∧ job.error_message = some msg ∧
         job.error_message ≠ none ∧ job.error_message ≠ some "") ∧
    ((_process_single_job env s job_id).2 = Except.ok () →
       audio ∉ (_process_single_job env s job_id).1.disk) := by
  constructor
  · intro msg hne hfail
    refine ⟨process_temp_removed env s job_id audio hex hfreshtmp, ?_⟩
    intro job hmem
    obtain ⟨h1, h2⟩ := process_error_record env s job_id msg hfail job hmem
    refine ⟨h1, h2, by simp [h2], ?_⟩
    rw [h2]
    simpa using hne
  · intro _
    exact process_temp_removed env s job_id audio hex hfreshtmp

/-- A registry holding one srt job being processed, its upload on disk. -/
def c4state : JMState :=
  { jobs := [("j1", { newJob "j1" "talk.mp4" "static/uploads/u4_talk.mp4" "srt" true 0 with
                       status := JobStatus.processing })],
    job_queue := [], currently_processing := some "j1",
    disk := ["static/uploads/u4_talk.mp4"], deletions := [] }

/-- An environment whose transcription step raises after extraction
succeeded. -/
def c4env : ProcEnv :=
  { getsize := Except.ok 1, extract_audio := Except.ok "tmp4.wav",
    transcribe_large_file := Except.error "transcribe failed",
    transcribe_file_no_vad := Except.error "transcribe failed",
    write_artifact := Except.ok (), now := 9 }

theorem temp_audio_always_cleaned_witness :
    "tmp4.wav" ∉ (_process_single_job c4env c4state "j1").1.disk ∧
    ∀ job, ("j1", job) ∈ (_process_single_job c4env c4state "j1").1.jobs →
      job.status = JobStatus.error ∧ job.error_message = some "transcribe failed" ∧
      job.error_message ≠ none ∧ job.error_message ≠ some "" :=
  (temp_audio_always_cleaned c4env c4state "j1" "tmp4.wav" rfl (by decide)).1
    "transcribe failed" (by decide) rfl

/-- The registry entry createJob builds for one upload request. -/
def reqEntry (now : Int) (r : CreateReq) : String × Job :=
  (r.job_id, newJob r.job_id r.filename r.filepath r.output_format r.use_vad now)

/-- A batch of uploads handled back to back at one instant. -/
def createBatch (cfg : AppConfig) (now : Int) (s0 : JMState)
    (reqs : List CreateReq) : JMState :=
  reqs.foldl (fun s r => upload_and_create cfg now r s) s0

lemma createBatch_snoc (cfg : AppConfig) (now : Int) (s0 : JMState)
    (p : List CreateReq) (r : CreateReq) :
    createBatch cfg now s0 (p ++ [r]) =
      upload_and_create cfg now r (createBatch cfg now s0 p) := by
  simp [createBatch, List.foldl_append]

lemma evictLoop_of_lt (m fuel : Nat) (s : JMState) (h : s.jobs.length < m) :
    evictLoop m fuel s = s := by
  cases fuel with
  | zero => rfl
  | succ fuel => simp [evictLoop, Nat.not_le.mpr h]

/-- On a registry whose every record is fresh, the age pass removes
nothing and cleanup is just the capacity loop. -/
lemma cleanup_of_fresh (cfg : AppConfig) (now : Int) (s : JMState)
    (hfresh : ∀ p ∈ s.jobs, ¬(p.2.created_at < now - (cfg.JOB_CLEANUP_HOURS : Int) * 3600)) :
    _cleanup_old_jobs cfg now s = evictLoop cfg.MAX_JOBS_IN_MEMORY s.jobs.length s := by
  have hage : s.jobs.filter
      (fun p => decide (p.2.created_at < now - (cfg.JOB_CLEANUP_HOURS : Int) * 3600)) = [] :=
    List.filter_eq_nil.mpr (fun p hp => by simpa using hfresh p hp)
  simp only [_cleanup_old_jobs, evictOverCap, hage, List.map_nil, List.foldl_nil]

lemma entry_created_at (now : Int) (r : CreateReq) :
    (reqEntry now r).2.created_at = now := rfl

lemma entries_fresh (cfg : AppConfig) (now : Int) (l : List (String × Job))
    (hl : ∀ p ∈ l, p.2.created_at = now) :
    ∀ p ∈ l, ¬(p.2.created_at < now - (cfg.JOB_CLEANUP_HOURS : Int) * 3600) := by
  intro p hp
  rw [hl p hp]
  omega

lemma upload_and_create_under_cap (cfg : AppConfig) (now : Int) (r : CreateReq)
    (jobs : List (String × Job)) (queue disk dels : List String)
    (hnow : ∀ p ∈ jobs, p.2.created_at = now)
    (hlen : jobs.length < cfg.MAX_JOBS_IN_MEMORY) :
    upload_and_create cfg now r
      { jobs := jobs, job_queue := queue, currently_processing := none,
        disk := disk, deletions := dels } =
      { jobs := jobs ++ [reqEntry now r], job_queue := queue ++ [r.job_id],
        currently_processing := none, disk := disk ++ [r.filepath],
        deletions := dels } := by
  have hcl := cleanup_of_fresh cfg now
    { jobs := jobs, job_queue := queue, currently_processing := none,
      disk := disk ++ [r.filepath], deletions := dels }
    (entries_fresh cfg now jobs hnow)
  rw [evictLoop_of_lt _ _ _ hlen] at hcl
  simp only [upload_and_create, create_job]
  rw [hcl]
  rfl

lemma upload_and_create_at_cap (cfg : AppConfig) (now : Int) (r r0 : CreateReq)
    (tl : List CreateReq) (queue disk0 dels : List String)
    (hcap : cfg.MAX_JOBS_IN_MEMORY = tl.length + 1)
    (hid0 : r0.job_id ∉ tl.map CreateReq.job_id)
    (hpath0disk : r0.filepath ∉ disk0)
    (hpath0tl : r0.filepath ∉ tl.map CreateReq.filepath)
    (hpath0r : r0.filepath ≠ r.filepath) :
    upload_and_create cfg now r
      { jobs := reqEntry now r0 :: tl.map (reqEntry now), job_queue := queue,
        currently_processing := none,
        disk := disk0 ++ r0.filepath :: tl.map CreateReq.filepath, deletions := dels } =
      { jobs := tl.map (reqEntry now) ++ [reqEntry now r],
        job_queue := queue ++ [r.job_id], currently_processing := none,
        disk := disk0 ++ tl.map CreateReq.filepath ++ [r.filepath],
        deletions := dels ++ [r0.filepath] } := by
  have hnow : ∀ p ∈ reqEntry now r0 :: tl.map (reqEntry now), p.2.created_at = now := by
    intro p hp
    rcases List.mem_cons.mp hp with h | h
    · rw [h]; rfl
    · rcases List.mem_map.mp h with ⟨q, _, he⟩
      rw [← he]; rfl
  -- the state after the upload wrote the new source file to disk
  have hS' : ({ jobs := reqEntry now r0 :: tl.map (reqEntry now), job_queue := queue,
                currently_processing := none,
                disk := (disk0 ++ r0.filepath :: tl.map CreateReq.filepath) ++ [r.filepath],
                deletions := dels } : JMState).jobs.length = tl.length + 1 := by
    simp
  have hmemfp : r0.filepath ∈
      ((disk0 ++ r0.filepath :: tl.map CreateReq.filepath) ++ [r.filepath]) := by
    simp
  have hfilter : ((disk0 ++ r0.filepath :: tl.map CreateReq.filepath) ++ [r.filepath]).filter
      (fun q => q != r0.filepath) = disk0 ++ tl.map CreateReq.filepath ++ [r.filepath] := by
    rw [List.filter_append, List.filter_append, List.filter_cons]
    have h1 : disk0.filter (fun q => q != r0.filepath) = disk0 :=
      List.filter_eq_self.mpr (fun q hq => by
        simp only [bne_iff_ne, ne_eq]
        exact fun he => hpath0disk (he ▸ hq))
    have h2 : (tl.map CreateReq.filepath).filter (fun q => q != r0.filepath) =
        tl.map CreateReq.filepath :=
      List.filter_eq_self.mpr (fun q hq => by
        simp only [bne_iff_ne, ne_eq]
        exact fun he => hpath0tl (he ▸ hq))
    have h3 : ([r.filepath] : List String).filter (fun q => q != r0.filepath) =
        [r.filepath] :=
      List.filter_eq_self.mpr (fun q hq => by
        simp only [bne_iff_ne, ne_eq]
        rcases List.mem_singleton.mp hq with rfl
        exact fun he => hpath0r he.symm)
    rw [h1, h2, h3]
    simp
  have hlook : lookupJob
      { jobs := reqEntry now r0 :: tl.map (reqEntry now), job_queue := queue,
        currently_processing := none,
        disk := (disk0 ++ r0.filepath :: tl.map CreateReq.filepath) ++ [r.filepath],
        deletions := dels } r0.job_id =
      some (newJob r0.job_id r0.filename r0.filepath r0.output_format r0.use_vad now) := by
    unfold lookupJob
    simp [reqEntry]
  have hcjf : _cleanup_job_files
      { jobs := reqEntry now r0 :: tl.map (reqEntry now), job_queue := queue,
        currently_processing := none,
        disk := (disk0 ++ r0.filepath :: tl.map CreateReq.filepath) ++ [r.filepath],
        deletions := dels } r0.job_id =
      { jobs := reqEntry now r0 :: tl.map (reqEntry now), job_queue := queue,
        currently_processing := none,
        disk := disk0 ++ tl.map CreateReq.filepath ++ [r.filepath],
        deletions := dels ++ [r0.filepath] } := by
    unfold _cleanup_job_files
    rw [hlook]
    show removeFile _ ((newJob r0.job_id r0.filename r0.filepath r0.output_format
      r0.use_vad now).filepath) = _
    unfold removeFile
    rw [if_pos]
    · simp only [newJob]
      rw [hfilter]
    · exact hmemfp
  have hjfilter : (reqEntry now r0 :: tl.map (reqEntry now)).filter
      (fun p => p.1 != r0.job_id) = tl.map (reqEntry now) := by
    rw [List.filter_cons]
    have hhead : ((reqEntry now r0).1 != r0.job_id) = false := by
      simp [reqEntry]
    rw [hhead]
    simp only [Bool.false_eq_true, if_false]
    apply List.filter_eq_self.mpr
    intro p hp
    rcases List.mem_map.mp hp with ⟨q, hq, he⟩
    rw [← he]
    simp only [reqEntry, bne_iff_ne, ne_eq]
    intro hqe
    exact hid0 (hqe ▸ List.mem_map_of_mem CreateReq.job_id hq)
  have hE : evictOne
      { jobs := reqEntry now r0 :: tl.map (reqEntry now), job_queue := queue,
        currently_processing := none,
        disk := (disk0 ++ r0.filepath :: tl.map CreateReq.filepath) ++ [r.filepath],
        deletions := dels } r0.job_id =
      { jobs := tl.map (reqEntry now), job_queue := queue,
        currently_processing := none,
        disk := disk0 ++ tl.map CreateReq.filepath ++ [r.filepath],
        deletions := dels ++ [r0.filepath] } := by
    unfold evictOne removeJob
    rw [hcjf]
    simp only [hjfilter]
  have hloop : evictLoop cfg.MAX_JOBS_IN_MEMORY (tl.length + 1)
      { jobs := reqEntry now r0 :: tl.map (reqEntry now), job_queue := queue,
        currently_processing := none,
        disk := (disk0 ++ r0.filepath :: tl.map CreateReq.filepath) ++ [r.filepath],
        deletions := dels } =
      { jobs := tl.map (reqEntry now), job_queue := queue,
        currently_processing := none,
        disk := disk0 ++ tl.map CreateReq.filepath ++ [r.filepath],
        deletions := dels ++ [r0.filepath] } := by
    simp only [evictLoop]
    rw [if_pos]
    · show evictLoop cfg.MAX_JOBS_IN_MEMORY tl.length (evictOne _ (reqEntry now r0).1) = _
      have : (reqEntry now r0).1 = r0.job_id := rfl
      rw [this, hE]
      exact evictLoop_of_lt _ _ _ (by simp [hcap])
    · simp [hcap]
  have hcl := cleanup_of_fresh cfg now
    { jobs := reqEntry now r0 :: tl.map (reqEntry now), job_queue := queue,
      currently_processing := none,
      disk := (disk0 ++ r0.filepath :: tl.map CreateReq.filepath) ++ [r.filepath],
      deletions := dels }
    (entries_fresh cfg now _ hnow)
  rw [hS', hloop] at hcl
  simp only [upload_and_create, create_job]
  rw [hcl]
  rfl

/-- Closed form of a same-instant upload batch started from a fresh
manager: the registry retains the youngest min(n, MAX) requests in order,
the queue holds every id, and the files of the evicted oldest requests
have been deleted from disk in insertion order. -/
lemma createBatch_closed_form (cfg : AppConfig) (now : Int) (disk0 : List String)
    (hm : 1 ≤ cfg.MAX_JOBS_IN_MEMORY) :
    ∀ reqs : List CreateReq,
      (reqs.map CreateReq.job_id).Nodup →
      (reqs.map CreateReq.filepath).Nodup →
      (∀ r ∈ reqs, r.filepath ∉ disk0) →
      createBatch cfg now (initJM disk0) reqs =
        { jobs := (reqs.drop (reqs.length - cfg.MAX_JOBS_IN_MEMORY)).map (reqEntry now),
          job_queue := reqs.map CreateReq.job_id,
          currently_processing := none,
          disk := disk0 ++
            (reqs.drop (reqs.length - cfg.MAX_JOBS_IN_MEMORY)).map CreateReq.filepath,
          deletions :=
            (reqs.take (reqs.length - cfg.MAX_JOBS_IN_MEMORY)).map CreateReq.filepath } := by
  intro reqs
  induction reqs using List.reverseRecOn with
  | nil =>
    intro _ _ _
    simp [createBatch, initJM]
  | append_singleton p r ih =>
    intro hids hpaths hdisk
    have hidsp : (p.map CreateReq.job_id).Nodup := by
      rw [List.map_append] at hids
      exact (List.nodup_append.mp hids).1
    have hpathsp : (p.map CreateReq.filepath).Nodup := by
      rw [List.map_append] at hpaths
      exact (List.nodup_append.mp hpaths).1
    have hdiskp : ∀ q ∈ p, q.filepath ∉ disk0 :=
      fun q hq => hdisk q (List.mem_append_left _ hq)
    rw [createBatch_snoc, ih hidsp hpathsp hdiskp]
    by_cases hlt : p.length < cfg.MAX_JOBS_IN_MEMORY
    · have hd0 : p.length - cfg.MAX_JOBS_IN_MEMORY = 0 :=
        Nat.sub_eq_zero_of_le (le_of_lt hlt)
      have hd1 : (p ++ [r]).length - cfg.MAX_JOBS_IN_MEMORY = 0 := by
        rw [List.length_append]
        simp only [List.length_singleton]
        omega
      rw [hd0, hd1]
      simp only [List.drop_zero, List.take_zero, List.map_nil]
      rw [upload_and_create_under_cap cfg now r (p.map (reqEntry now))
        (p.map CreateReq.job_id) (disk0 ++ p.map CreateReq.filepath) []
        (by
          intro q hq
          rcases List.mem_map.mp hq with ⟨x, _, he⟩
          rw [← he]; rfl)
        (by simpa using hlt)]
      simp [List.map_append, List.append_assoc]
    · have hge : cfg.MAX_JOBS_IN_MEMORY ≤ p.length := Nat.le_of_not_lt hlt
      have hlendrop : (p.drop (p.length - cfg.MAX_JOBS_IN_MEMORY)).length =
          cfg.MAX_JOBS_IN_MEMORY := by
        rw [List.length_drop]
        omega
      obtain ⟨r0, tl, hdrop⟩ : ∃ r0 tl,
          p.drop (p.length - cfg.MAX_JOBS_IN_MEMORY) = r0 :: tl := by
        rcases hd : p.drop (p.length - cfg.MAX_JOBS_IN_MEMORY) with _ | ⟨a, t⟩
        · rw [hd] at hlendrop
          simp at hlendrop
          omega
        · exact ⟨a, t, rfl⟩
      have htl : cfg.MAX_JOBS_IN_MEMORY = tl.length + 1 := by
        rw [hdrop] at hlendrop
        simpa using hlendrop.symm
      have hsubdrop : (r0 :: tl).Sublist p := by
        rw [← hdrop]
        exact List.drop_sublist _ _
      have hr0p : r0 ∈ p := hsubdrop.subset (List.mem_cons_self r0 tl)
      have hid0 : r0.job_id ∉ tl.map CreateReq.job_id := by
        have hnd : ((r0 :: tl).map CreateReq.job_id).Nodup :=
          hidsp.sublist (hsubdrop.map _)
        rw [List.map_cons, List.nodup_cons] at hnd
        exact hnd.1
      have hpath0tl : r0.filepath ∉ tl.map CreateReq.filepath := by
        have hnd : ((r0 :: tl).map CreateReq.filepath).Nodup :=
          hpathsp.sublist (hsubdrop.map _)
        rw [List.map_cons, List.nodup_cons] at hnd
        exact hnd.1
      have hpath0disk : r0.filepath ∉ disk0 := hdiskp r0 hr0p
      have hpath0r : r0.filepath ≠ r.filepath := by
        rw [List.map_append] at hpaths
        have hdisj := (List.nodup_append.mp hpaths).2.2
        intro he
        exact hdisj (List.mem_map_of_mem CreateReq.filepath hr0p) (by simp [he])
      rw [hdrop]
      simp only [List.map_cons]
      rw [upload_and_create_at_cap cfg now r r0 tl (p.map CreateReq.job_id) disk0
        ((p.take (p.length - cfg.MAX_JOBS_IN_MEMORY)).map CreateReq.filepath)
        htl hid0 hpath0disk hpath0tl hpath0r]
      -- identify the four changed fields with the target for p ++ [r]
      have hd1 : (p ++ [r]).length - cfg.MAX_JOBS_IN_MEMORY =
          (p.length - cfg.MAX_JOBS_IN_MEMORY) + 1 := by
        rw [List.length_append]
        simp only [List.length_singleton]
        omega
      have hd1le : (p.length - cfg.MAX_JOBS_IN_MEMORY) + 1 ≤ p.length := by omega
      have hdropsucc : p.drop ((p.length - cfg.MAX_JOBS_IN_MEMORY) + 1) = tl := by
        have h1 : p.drop ((p.length - cfg.MAX_JOBS_IN_MEMORY) + 1) =
            (p.drop (p.length - cfg.MAX_JOBS_IN_MEMORY)).drop 1 := by
          rw [List.drop_drop]
        rw [h1, hdrop]
        rfl
      have hget : p[p.length - cfg.MAX_JOBS_IN_MEMORY]? = some r0 := by
        rw [← List.head?_drop, hdrop]
        rfl
      have htakesucc : p.take ((p.length - cfg.MAX_JOBS_IN_MEMORY) + 1) =
          p.take (p.length - cfg.MAX_JOBS_IN_MEMORY) ++ [r0] := by
        rw [List.take_succ, hget]
        rfl
      have hdropapp : (p ++ [r]).drop ((p.length - cfg.MAX_JOBS_IN_MEMORY) + 1) =
          tl ++ [r] := by
        rw [List.drop_append_of_le_length hd1le, hdropsucc]
      have htakeapp : (p ++ [r]).take ((p.length - cfg.MAX_JOBS_IN_MEMORY) + 1) =
          p.take (p.length - cfg.MAX_JOBS_IN_MEMORY) ++ [r0] := by
        rw [List.take_append_of_le_length hd1le, htakesucc]
      rw [hd1, hdropapp, htakeapp]
      simp [List.map_append, List.append_assoc]

lemma entries_keys (now : Int) (l : List CreateReq) :
    (l.map (reqEntry now)).map Prod.fst = l.map CreateReq.job_id := by
  rw [List.map_map]
  rfl

/-- C3: after creating MAX_JOBS_IN_MEMORY + k jobs back to back, the
registry holds at most MAX_JOBS_IN_MEMORY records; the k oldest-created
jobs are absent (the surviving keys are exactly the youngest MAX ids in
order), and each evicted job's uploaded source file was removed from
disk as part of eviction, oldest-inserted first — the deletion log is
exactly the first k source files in insertion order (an evicted waiting
job has no result file yet, so its source file is all there is to
delete). -/
theorem bounded_memory_eviction (cfg : AppConfig) (now : Int) (disk0 : List String)
    (reqs : List CreateReq) (k : Nat)
    (hm : 1 ≤ cfg.MAX_JOBS_IN_MEMORY) (hk : 1 ≤ k)
    (hn : reqs.length = cfg.MAX_JOBS_IN_MEMORY + k)
    (hids : (reqs.map CreateReq.job_id).Nodup)
    (hpaths : (reqs.map CreateReq.filepath).Nodup)
    (hdisk : ∀ r ∈ reqs, r.filepath ∉ disk0) :
    (createBatch cfg now (initJM disk0) reqs).jobs.length ≤ cfg.MAX_JOBS_IN_MEMORY ∧
    (∀ r ∈ reqs.take k,
       r.job_id ∉ (createBatch cfg now (initJM disk0) reqs).jobs.map Prod.fst ∧
       r.filepath ∉ (createBatch cfg now (initJM disk0) reqs).disk) ∧
    (createBatch cfg now (initJM disk0) reqs).deletions =
      (reqs.take k).map CreateReq.filepath ∧
    (createBatch cfg now (initJM disk0) reqs).jobs.map Prod.fst =
      (reqs.drop k).map CreateReq.job_id := by
  have hcf := createBatch_closed_form cfg now disk0 hm reqs hids hpaths hdisk
  have hkk : reqs.length - cfg.MAX_JOBS_IN_MEMORY = k := by omega
  rw [hkk] at hcf
  rw [hcf]
  have hidsplit : reqs.map CreateReq.job_id =
      (reqs.take k).map CreateReq.job_id ++ (reqs.drop k).map CreateReq.job_id := by
    rw [← List.map_append, List.take_append_drop]
  have hpathsplit : reqs.map CreateReq.filepath =
      (reqs.take k).map CreateReq.filepath ++ (reqs.drop k).map CreateReq.filepath := by
    rw [← List.map_append, List.take_append_drop]
  rw [hidsplit] at hids
  rw [hpathsplit] at hpaths
  have hiddisj := (List.nodup_append.mp hids).2.2
  have hpathdisj := (List.nodup_append.mp hpaths).2.2
  refine ⟨?_, ?_, rfl, entries_keys now _⟩
  · show ((reqs.drop k).map (reqEntry now)).length ≤ cfg.MAX_JOBS_IN_MEMORY
    rw [List.length_map, List.length_drop]
    omega
  · intro r hr
    constructor
    · show r.job_id ∉ ((reqs.drop k).map (reqEntry now)).map Prod.fst
      rw [entries_keys]
      exact fun hmem => hiddisj (List.mem_map_of_mem _ hr) hmem
    · show r.filepath ∉ disk0 ++ (reqs.drop k).map CreateReq.filepath
      intro hmem
      rcases List.mem_append.mp hmem with h | h
      · exact hdisk r (List.mem_of_mem_take hr) h
      · exact hpathdisj (List.mem_map_of_mem _ hr) h

/-- Six uploads against the five-slot configuration of app.py. -/
def c3reqs : List CreateReq :=
  [⟨"j1", "a1.mp4", "u1", "srt", true⟩, ⟨"j2", "a2.mp4", "u2", "srt", true⟩,
   ⟨"j3", "a3.mp4", "u3", "srt", true⟩, ⟨"j4", "a4.mp4", "u4", "srt", true⟩,
   ⟨"j5", "a5.mp4", "u5", "srt", true⟩, ⟨"j6", "a6.mp4", "u6", "srt", true⟩]

theorem bounded_memory_eviction_witness :
    (createBatch appConfig 0 (initJM []) c3reqs).jobs.length ≤
      appConfig.MAX_JOBS_IN_MEMORY ∧
    (∀ r ∈ c3reqs.take 1,
       r.job_id ∉ (createBatch appConfig 0 (initJM []) c3reqs).jobs.map Prod.fst ∧
       r.filepath ∉ (createBatch appConfig 0 (initJM []) c3reqs).disk) ∧
    (createBatch appConfig 0 (initJM []) c3reqs).deletions =
      (c3reqs.take 1).map CreateReq.filepath ∧
    (createBatch appConfig 0 (initJM []) c3reqs).jobs.map Prod.fst =
      (c3reqs.drop 1).map CreateReq.job_id :=
  bounded_memory_eviction appConfig 0 [] c3reqs 1 (by decide) (by decide) (by decide)
    (by decide) (by decide) (by decide)
